import Mathlib

/-!
Shallow embedding of the forecast core of `src/app.py` (finance analyzer):
the CSV record validation performed in the `forecast` route handler
(header check, row parsing, no-data and insufficient-history checks) and
the `generate_forecast` engine (historical month summaries, per-category
ordinary-least-squares trend fitting, clamped future predictions).

Modelling conventions:
* Python `float` amounts are modelled as exact rationals (`ℚ`); IEEE
  rounding, `inf` and `nan` are outside the embedding.
* Python strings are Lean `String`s; `strip`/`lower` are re-implemented
  over the underlying character list so they compute in the kernel.
* `csv.reader` output is modelled as the already-split rows, i.e. a header
  `List String` plus data rows `List (List String)`; CSV quoting itself is
  part of the excluded I/O shell.
* Python `set` iteration order is unspecified; it is determinized here as
  first-occurrence order (`dedupFirst`).  No verified property depends on
  this order.
-/

namespace FinanceAnalyzer

/-- Python `str.strip()`: drop leading and trailing whitespace.
(`Char.isWhitespace` covers the ASCII whitespace of the inputs in scope.) -/
def pyStrip (s : String) : String :=
  String.mk (((s.data.dropWhile Char.isWhitespace).reverse.dropWhile Char.isWhitespace).reverse)

/-- Python `str.lower()` (ASCII case mapping, which is all the header check needs). -/
def pyLower (s : String) : String :=
  String.mk (s.data.map Char.toLower)

/-- Keep the first occurrence of every element, in order: the deterministic
model of Python's `set` / dict-key collection used by `app.py`. -/
def dedupFirst {α : Type} [DecidableEq α] : List α → List α
  | [] => []
  | a :: as => a :: (dedupFirst as).filter (fun b => b ≠ a)

/-- Digits-to-number accumulator (the usual base-10 positional value). -/
def digitsToNat (l : List Char) : Nat :=
  l.foldl (fun n c => 10 * n + (c.toNat - 48)) 0

/-- A nonempty all-digit character list parses to its value, otherwise fails. -/
def parseDigits (l : List Char) : Option Nat :=
  if !l.isEmpty && l.all Char.isDigit then some (digitsToNat l) else none

/-- Python `int(s)` on an already-stripped string: optional sign, then digits.
(Digit-group underscores are outside the embedding.) -/
def parseIntPy (s : String) : Option Int :=
  match s.data with
  | '+' :: rest => (parseDigits rest).map Int.ofNat
  | '-' :: rest => (parseDigits rest).map (fun n => -(n : Int))
  | l => (parseDigits l).map Int.ofNat

/-- Mantissa of a Python float literal: `digits [. digits]` or `. digits`,
with at least one digit overall. -/
def parseMantissa (l : List Char) : Option ℚ :=
  let ip := l.takeWhile Char.isDigit
  match l.dropWhile Char.isDigit with
  | [] => if ip.isEmpty then none else some (digitsToNat ip : ℚ)
  | '.' :: fp =>
    if fp.all Char.isDigit && !(ip.isEmpty && fp.isEmpty) then
      some ((digitsToNat ip : ℚ) + (digitsToNat fp : ℚ) / ((10 : ℚ) ^ fp.length))
    else none
  | _ => none

/-- Signed digit string (used for the exponent part of a float literal). -/
def parseSignedDigits (l : List Char) : Option Int :=
  match l with
  | '+' :: rest => (parseDigits rest).map Int.ofNat
  | '-' :: rest => (parseDigits rest).map (fun n => -(n : Int))
  | _ => (parseDigits l).map Int.ofNat

/-- Python `float(s)` on an already-stripped string, over exact rationals:
optional sign, mantissa, optional `e`/`E` exponent.  (`inf`, `nan` and
digit-group underscores are outside the embedding.) -/
def parseFloatPy (s : String) : Option ℚ :=
  let signAndBody : ℚ × List Char :=
    match s.data with
    | '+' :: rest => (1, rest)
    | '-' :: rest => (-1, rest)
    | l => (1, l)
  match (signAndBody.2.takeWhile (fun c => c != 'e' && c != 'E'),
         signAndBody.2.dropWhile (fun c => c != 'e' && c != 'E')) with
  | (m, []) => (parseMantissa m).map (fun v => signAndBody.1 * v)
  | (m, _ :: e) =>
    match parseMantissa m, parseSignedDigits e with
    | some v, some ev => some (signAndBody.1 * v * (10 : ℚ) ^ ev)
    | _, _ => none

/-- One validated observation: the record
`{'category': category, 'amount': amount, 'month': month}` appended to
`all_data` in `app.py` (line 83). -/
structure Obs where
  month : Int
  category : String
  amount : ℚ
deriving DecidableEq

/-- The rejection outcomes of the validation section of the `forecast`
handler (`app.py` lines 57–91), carrying the data that the corresponding
error messages interpolate. -/
inductive ValidationError where
  | schemaError
  | parseError (category month amount : String)
  | noData
  | insufficientHistory (count : Nat)
deriving DecidableEq

/-- Header check of `app.py` line 58: exactly three fields whose
lowercasings are `month`, `category`, `amount` in that order. -/
def headerOk : List String → Bool
  | [a, b, c] =>
    pyLower a == "month" && pyLower b == "category" && pyLower c == "amount"
  | _ => false

/-- The row-parsing loop of `app.py` lines 65–84.  Rows without exactly 3
fields are skipped; rows with an empty (stripped) category or month are
skipped; a month or amount that fails numeric parsing aborts the whole
validation with a `parseError` naming the stripped category and the raw
stripped month and amount strings. -/
def parseRows : List (List String) → Except ValidationError (List Obs)
  | [] => Except.ok []
  | row :: rest =>
    match row with
    | [month_raw, category_raw, amount_raw] =>
      let month_str := pyStrip month_raw
      let category := pyStrip category_raw
      let amount_str := pyStrip amount_raw
      if category == "" || month_str == "" then
        parseRows rest
      else
        match parseIntPy month_str, parseFloatPy amount_str with
        | some month, some amount =>
          match parseRows rest with
          | Except.ok tail => Except.ok (⟨month, category, amount⟩ :: tail)
          | Except.error e => Except.error e
        | _, _ => Except.error (ValidationError.parseError category month_str amount_str)
    | _ => parseRows rest

/-- The distinct months of the parsed data, as collected in `months_found`
(`app.py` line 84). -/
def distinctMonths (data : List Obs) : List Int :=
  dedupFirst (data.map Obs.month)

/-- The distinct categories of the parsed data
(`categories = list(set(item['category'] for item in all_data))`, line 94). -/
def categoriesOf (data : List Obs) : List String :=
  dedupFirst (data.map Obs.category)

/-- Model of `months = sorted(list(set(item['month'] for item in data)))`
(`app.py` line 114).  Python's `sorted` is modelled by insertion sort, which
agrees with any correct sort on a duplicate-free list. -/
def sortedMonths (data : List Obs) : List Int :=
  List.insertionSort (· ≤ ·) (distinctMonths data)

/-- Model of `next_month - 1`, i.e. `max(months)` (`app.py` line 132); the
`[]` branch is unreachable since `generate_forecast` is only called with
nonempty data. -/
def maxMonth (data : List Obs) : Int :=
  match sortedMonths data with
  | [] => 0
  | m :: ms => ms.foldl max m

/-- Total of the amounts of a list of observations,
`sum(item['amount'] for item in items)`. -/
def sumAmounts (items : List Obs) : ℚ :=
  (items.map Obs.amount).sum

/-- Per-category entries of a historical month's summary (`app.py` lines
121–126): a category appears iff it has at least one observation in that
month, with the amounts summed. -/
def histCats (data : List Obs) (categories : List String) (m : Int) : List (String × ℚ) :=
  categories.filterMap (fun c =>
    let items := data.filter (fun o => o.category == c && o.month == m)
    if items.isEmpty then none else some (c, sumAmounts items))

/-- The per-category time series used for the regression of one category
(`app.py` lines 141–159): for each month with at least one observation of
the category (in first-occurrence order, as dict insertion order), the
summed amount. -/
def seriesOf (data : List Obs) (c : String) : List (Int × ℚ) :=
  let cd := data.filter (fun o => o.category == c)
  (dedupFirst (cd.map Obs.month)).map
    (fun m => (m, sumAmounts (cd.filter (fun o => o.month == m))))

/-- Prediction of `sklearn.linear_model.LinearRegression` at `x` after
fitting the points `pts` (`app.py` lines 165–169): ordinary least squares
`slope = Sxy / Sxx`, `intercept = ybar - slope * xbar`, with `slope = 0`
when `Sxx = 0` (the rank-deficient single-point case). -/
def olsPredict (pts : List (Int × ℚ)) (x : ℚ) : ℚ :=
  let n : ℚ := pts.length
  let xs := pts.map (fun p => (p.1 : ℚ))
  let ys := pts.map Prod.snd
  let xbar := xs.sum / n
  let ybar := ys.sum / n
  let sxx := (xs.map (fun xi => (xi - xbar) * (xi - xbar))).sum
  let sxy := ((xs.zip ys).map (fun p => (p.1 - xbar) * (p.2 - ybar))).sum
  let slope := if sxx = 0 then 0 else sxy / sxx
  ybar + slope * (x - xbar)

/-- Per-category entries of a future month's summary (`app.py` lines
139–171): every category with at least one observation gets the fitted
prediction at `m`, clamped below at 0 (`max(0, ...)`, line 169). -/
def futureCats (data : List Obs) (categories : List String) (m : Int) : List (String × ℚ) :=
  categories.filterMap (fun c =>
    if (data.filter (fun o => o.category == c)).isEmpty then none
    else some (c, max 0 (olsPredict (seriesOf data c) (m : ℚ))))

/-- One output record `month_data` of `generate_forecast`: the month, the
savings `salary - total_expense`, and the per-category entries. -/
structure MonthSummary where
  month : Int
  savings : ℚ
  cats : List (String × ℚ)
deriving DecidableEq

/-- A historical month's summary (`app.py` lines 117–129). -/
def histSummary (data : List Obs) (categories : List String) (salary : ℚ) (m : Int) :
    MonthSummary :=
  ⟨m, salary - ((histCats data categories m).map Prod.snd).sum, histCats data categories m⟩

/-- A future month's summary (`app.py` lines 135–174). -/
def futureSummary (data : List Obs) (categories : List String) (salary : ℚ) (m : Int) :
    MonthSummary :=
  ⟨m, salary - ((futureCats data categories m).map Prod.snd).sum, futureCats data categories m⟩

/-- The engine `generate_forecast(data, categories, salary, forecast_months)`
(`app.py` lines 110–176): one summary per historical month in ascending
order, then one summary per future month `max(months)+1, ...,
max(months)+forecast_months`. -/
def generate_forecast (data : List Obs) (categories : List String) (salary : ℚ)
    (forecast_months : Nat) : List MonthSummary :=
  (sortedMonths data).map (histSummary data categories salary)
    ++ (List.range forecast_months).map
      (fun i : Nat => futureSummary data categories salary (maxMonth data + 1 + (i : Int)))

/-- The CSV-validation-plus-forecast section of the `forecast` handler
(`app.py` lines 57–102), after the salary / forecast-months parameter
checks (lines 24–48) have passed: header check, row parsing, no-data
check, distinct-month-count check, then `generate_forecast`. -/
def forecastApi (header : List String) (rows : List (List String)) (salary : ℚ)
    (forecast_months : Nat) : Except ValidationError (List String × List MonthSummary) :=
  if headerOk header then
    match parseRows rows with
    | Except.error e => Except.error e
    | Except.ok all_data =>
      if all_data.isEmpty then Except.error ValidationError.noData
      else if (distinctMonths all_data).length < 3 then
        Except.error (ValidationError.insufficientHistory (distinctMonths all_data).length)
      else
        Except.ok (categoriesOf all_data,
          generate_forecast all_data (categoriesOf all_data) salary forecast_months)
  else Except.error ValidationError.schemaError

end FinanceAnalyzer

namespace FinanceAnalyzer

theorem mem_dedupFirst {α : Type} [DecidableEq α] {l : List α} {a : α} :
    a ∈ dedupFirst l ↔ a ∈ l := by
  induction l with
  | nil => simp [dedupFirst]
  | cons x xs ih =>
    simp only [dedupFirst, List.mem_cons, List.mem_filter]
    constructor
    · rintro (rfl | ⟨h, _⟩)
      · exact Or.inl rfl
      · exact Or.inr (ih.mp h)
    · rintro (rfl | h)
      · exact Or.inl rfl
      · by_cases hxa : a = x
        · exact Or.inl hxa
        · exact Or.inr ⟨ih.mpr h, by simpa using hxa⟩

theorem nodup_dedupFirst {α : Type} [DecidableEq α] (l : List α) :
    (dedupFirst l).Nodup := by
  induction l with
  | nil => simp [dedupFirst]
  | cons x xs ih =>
    simp only [dedupFirst, List.nodup_cons]
    refine ⟨fun hx => ?_, ih.filter _⟩
    have := (List.mem_filter.mp hx).2
    simp at this

theorem sortedMonths_perm (data : List Obs) :
    List.Perm (sortedMonths data) (distinctMonths data) :=
  List.perm_insertionSort _ _

theorem mem_sortedMonths {data : List Obs} {m : Int} :
    m ∈ sortedMonths data ↔ m ∈ distinctMonths data :=
  (sortedMonths_perm data).mem_iff

theorem length_sortedMonths (data : List Obs) :
    (sortedMonths data).length = (distinctMonths data).length :=
  (sortedMonths_perm data).length_eq

theorem sortedMonths_sorted (data : List Obs) :
    List.Sorted (· < ·) (sortedMonths data) := by
  have hs : List.Sorted (· ≤ ·) (sortedMonths data) := List.sorted_insertionSort _ _
  have hn : (sortedMonths data).Nodup :=
    ((sortedMonths_perm data).nodup_iff).mpr (nodup_dedupFirst _)
  exact hs.lt_of_le hn

theorem self_le_foldl_max (l : List Int) (a : Int) : a ≤ l.foldl max a := by
  induction l generalizing a with
  | nil => exact le_refl a
  | cons y ys ih => exact le_trans (le_max_left a y) (ih (max a y))

theorem mem_le_foldl_max (l : List Int) (a : Int) (x : Int) (h : x ∈ l) :
    x ≤ l.foldl max a := by
  induction l generalizing a with
  | nil => simp at h
  | cons y ys ih =>
    rcases List.mem_cons.mp h with rfl | h
    · exact le_trans (le_max_right a x) (self_le_foldl_max ys (max a x))
    · exact ih (max a y) h

theorem foldl_max_mem (l : List Int) (a : Int) :
    l.foldl max a = a ∨ l.foldl max a ∈ l := by
  induction l generalizing a with
  | nil => exact Or.inl rfl
  | cons y ys ih =>
    simp only [List.foldl_cons]
    rcases ih (max a y) with h | h
    · rcases max_choice a y with hm | hm
      · exact Or.inl (by rw [h, hm])
      · exact Or.inr (List.mem_cons.mpr (Or.inl (by rw [h, hm])))
    · exact Or.inr (List.mem_cons.mpr (Or.inr h))

theorem sortedMonths_ne_nil {data : List Obs} (h : data ≠ []) :
    sortedMonths data ≠ [] := by
  intro hc
  have hlen := length_sortedMonths data
  rw [hc] at hlen
  rcases data with _ | ⟨o, os⟩
  · exact h rfl
  · simp [distinctMonths, dedupFirst] at hlen

theorem le_maxMonth {data : List Obs} {m : Int} (h : m ∈ sortedMonths data) :
    m ≤ maxMonth data := by
  unfold maxMonth
  rcases hs : sortedMonths data with _ | ⟨x, xs⟩
  · rw [hs] at h; simp at h
  · rw [hs] at h
    rcases List.mem_cons.mp h with rfl | h
    · exact self_le_foldl_max xs m
    · exact mem_le_foldl_max xs x m h

theorem maxMonth_mem {data : List Obs} (h : data ≠ []) :
    maxMonth data ∈ sortedMonths data := by
  have hne := sortedMonths_ne_nil h
  unfold maxMonth
  rcases hs : sortedMonths data with _ | ⟨x, xs⟩
  · exact absurd hs hne
  · show xs.foldl max x ∈ x :: xs
    rcases foldl_max_mem xs x with hm | hm
    · exact List.mem_cons.mpr (Or.inl hm)
    · exact List.mem_cons.mpr (Or.inr hm)

end FinanceAnalyzer

namespace FinanceAnalyzer

theorem forecast_month_map (data : List Obs) (categories : List String) (salary : ℚ)
    (fm : Nat) :
    (generate_forecast data categories salary fm).map MonthSummary.month
      = sortedMonths data
        ++ (List.range fm).map (fun i : Nat => maxMonth data + 1 + (i : Int)) := by
  unfold generate_forecast
  rw [List.map_append, List.map_map, List.map_map]
  congr 1
  exact List.map_id _

theorem forecast_length (data : List Obs) (categories : List String) (salary : ℚ) (fm : Nat) :
    (generate_forecast data categories salary fm).length
      = (distinctMonths data).length + fm := by
  unfold generate_forecast
  rw [List.length_append, List.length_map, List.length_map, List.length_range,
    length_sortedMonths]

theorem forecast_months_ascending (data : List Obs) (categories : List String) (salary : ℚ)
    (fm : Nat) :
    List.Pairwise (· < ·)
      ((generate_forecast data categories salary fm).map MonthSummary.month) := by
  rw [forecast_month_map, List.pairwise_append]
  refine ⟨sortedMonths_sorted data, ?_, ?_⟩
  · refine List.pairwise_map.mpr ((List.pairwise_lt_range fm).imp ?_)
    intro i j hij
    omega
  · intro a ha b hb
    rcases List.mem_map.mp hb with ⟨i, _, rfl⟩
    have hm := le_maxMonth ha
    omega

end FinanceAnalyzer

namespace FinanceAnalyzer

theorem mem_forecast_savings (data : List Obs) (categories : List String) (salary : ℚ)
    (fm : Nat) (ms : MonthSummary) (h : ms ∈ generate_forecast data categories salary fm) :
    ms.savings = salary - (ms.cats.map Prod.snd).sum := by
  unfold generate_forecast at h
  rcases List.mem_append.mp h with h | h
  · rcases List.mem_map.mp h with ⟨m, _, rfl⟩
    rfl
  · rcases List.mem_map.mp h with ⟨i, _, rfl⟩
    rfl

/-- C1 (amended): the forecast timeline has length equal to the number of
distinct historical months plus the horizon; its month axis is the ascending
list of distinct historical months — which may contain gaps, exactly as the
input does — followed by the consecutive future months `maxMonth + 1, ...,
maxMonth + fm`; the whole month axis is strictly ascending; and `maxMonth`
is the maximum of the historical months.  The original claim's stronger
statement that successive output months always differ by exactly 1 is false
(see the counterexample below). -/
theorem forecast_timeline_months (data : List Obs) (categories : List String) (salary : ℚ)
    (fm : Nat) :
    (generate_forecast data categories salary fm).length = (distinctMonths data).length + fm
    ∧ (generate_forecast data categories salary fm).map MonthSummary.month
        = sortedMonths data
          ++ (List.range fm).map (fun i : Nat => maxMonth data + 1 + (i : Int))
    ∧ List.Pairwise (· < ·)
        ((generate_forecast data categories salary fm).map MonthSummary.month)
    ∧ (∀ y ∈ distinctMonths data, y ≤ maxMonth data)
    ∧ (data ≠ [] → maxMonth data ∈ distinctMonths data) := by
  refine ⟨forecast_length data categories salary fm, forecast_month_map data categories salary fm,
    forecast_months_ascending data categories salary fm, ?_, ?_⟩
  · intro y hy
    exact le_maxMonth (mem_sortedMonths.mpr hy)
  · intro h
    exact mem_sortedMonths.mp (maxMonth_mem h)

/-- C1 (counterexample to the claim as stated): with historical months
1, 2, 4 and horizon 1 the output month axis is 1, 2, 4, 5, which is not a
chain of plus-one steps, so the output months are not gap-free. -/
theorem forecast_timeline_gap_cex :
    ¬ List.Chain' (fun a b : Int => b = a + 1)
      ((generate_forecast [⟨1, "food", 10⟩, ⟨2, "food", 10⟩, ⟨4, "food", 10⟩]
        ["food"] 100 1).map MonthSummary.month) := by
  have h : (generate_forecast [⟨1, "food", 10⟩, ⟨2, "food", 10⟩, ⟨4, "food", 10⟩]
      ["food"] 100 1).map MonthSummary.month = [1, 2, 4, 5] := by
    rw [forecast_month_map]
    decide
  rw [h]
  simp [List.chain'_cons]

/-- C2: every output summary whose month is a historical month has
`savings` equal to the income minus the sum of the per-category amounts
present in that summary, exactly.  (The engine in fact establishes this for
every output entry, so the historical-month hypothesis is not needed.) -/
theorem hist_savings_eq_income_sub_sum (data : List Obs) (categories : List String)
    (salary : ℚ) (fm : Nat) (ms : MonthSummary)
    (h1 : ms ∈ generate_forecast data categories salary fm)
    (_h2 : ms.month ∈ distinctMonths data) :
    ms.savings = salary - (ms.cats.map Prod.snd).sum :=
  mem_forecast_savings data categories salary fm ms h1

/-- Witness for C2 at a concrete input. -/
theorem hist_savings_witness :
    (histSummary [⟨1, "food", 10⟩] ["food"] 100 1).savings
      = 100 - ((histSummary [⟨1, "food", 10⟩] ["food"] 100 1).cats.map Prod.snd).sum :=
  hist_savings_eq_income_sub_sum [⟨1, "food", 10⟩] ["food"] 100 1 _
    (List.mem_append_left _ (List.mem_map_of_mem _ (by decide))) (by decide)

/-- C3: when a category's summed per-month series consists of exactly one
data point `(m0, a0)`, the fitted regression predicts `a0` at every month
(the degenerate single-point fit is the constant line through that point);
the embedding is a total function, so the engine cannot fail here. -/
theorem single_point_series_constant_prediction (data : List Obs) (c : String) (m0 : Int)
    (a0 : ℚ) (h : seriesOf data c = [(m0, a0)]) (x : ℚ) :
    olsPredict (seriesOf data c) x = a0 := by
  rw [h]
  simp [olsPredict]

/-- Witness for C3 at a concrete input. -/
theorem single_point_series_witness :
    olsPredict (seriesOf [⟨5, "food", 7⟩] "food") 12 = 7 :=
  single_point_series_constant_prediction _ "food" 5 7
    (by simp +decide [seriesOf, dedupFirst, sumAmounts]) 12

/-- C5: a category whose summed per-month series is exactly the two points
`(1, 10)` and `(2, 20)` is predicted exactly 30 at month 3, both before and
after the non-negativity clamp. -/
theorem two_point_series_exact_extrapolation (data : List Obs) (c : String)
    (h : seriesOf data c = [(1, 10), (2, 20)]) :
    olsPredict (seriesOf data c) 3 = 30
    ∧ max 0 (olsPredict (seriesOf data c) 3) = 30 := by
  rw [h]
  norm_num [olsPredict]

/-- Witness for C5 at a concrete input. -/
theorem two_point_series_witness :
    olsPredict (seriesOf [⟨1, "rent", 10⟩, ⟨2, "rent", 20⟩] "rent") 3 = 30
    ∧ max 0 (olsPredict (seriesOf [⟨1, "rent", 10⟩, ⟨2, "rent", 20⟩] "rent") 3) = 30 :=
  two_point_series_exact_extrapolation _ "rent"
    (by simp +decide [seriesOf, dedupFirst, sumAmounts])

end FinanceAnalyzer

namespace FinanceAnalyzer

/-- C6: with a well-formed header and successfully parsed rows, validation
rejects with the no-data error whenever zero valid rows were parsed, and
this branch precedes the month-count check; otherwise, if the distinct
months number fewer than 3, it rejects with the insufficient-history error
carrying the actual distinct-month count; in both cases no forecast output
is produced. -/
theorem no_data_before_insufficient_history (header : List String)
    (rows : List (List String)) (salary : ℚ) (fm : Nat) (data : List Obs)
    (hok : headerOk header = true) (hp : parseRows rows = Except.ok data) :
    (data = [] → forecastApi header rows salary fm = Except.error ValidationError.noData)
    ∧ (data ≠ [] → (distinctMonths data).length < 3 →
        forecastApi header rows salary fm
          = Except.error (ValidationError.insufficientHistory (distinctMonths data).length))
    ∧ (∀ out, forecastApi header rows salary fm = Except.ok out →
        data ≠ [] ∧ 3 ≤ (distinctMonths data).length) := by
  unfold forecastApi
  rw [hok, hp]
  simp only [if_true]
  refine ⟨?_, ?_, ?_⟩
  · rintro rfl
    simp
  · intro hne hlt
    rw [if_neg (by simpa using hne), if_pos hlt]
  · intro out hout
    by_cases hd : data = []
    · subst hd
      simp at hout
    · rw [if_neg (by simpa using hd)] at hout
      by_cases hlt : (distinctMonths data).length < 3
      · rw [if_pos hlt] at hout
        cases hout
      · exact ⟨hd, by omega⟩

/-- Witness for C6 at a concrete input with exactly 2 distinct months. -/
theorem validation_order_witness :
    forecastApi ["month", "category", "amount"] [["1", "f", "10"], ["2", "f", "10"]] 100 3
      = Except.error (ValidationError.insufficientHistory
          (distinctMonths [⟨1, "f", 10⟩, ⟨2, "f", 10⟩]).length) :=
  (no_data_before_insufficient_history _ _ 100 3 [⟨1, "f", 10⟩, ⟨2, "f", 10⟩]
    (by decide)
    (by simp +decide [parseRows, pyStrip, parseIntPy, parseFloatPy, parseMantissa,
      parseDigits, digitsToNat])).2.1 (by decide) (by decide)

end FinanceAnalyzer

namespace FinanceAnalyzer

/-- C7: a data row whose field count differs from 3, or whose trimmed month
or category field is empty, is silently skipped and contributes nothing; a
3-field row whose trimmed month field fails integer parsing or whose
trimmed amount field fails real-number parsing aborts the whole validation
with an error naming the offending category and the raw trimmed month and
amount strings, regardless of the remaining rows; and a successfully parsed
row propagates any abort arising from the remaining rows. -/
theorem row_parsing_skip_and_abort (row : List String) (rest : List (List String)) :
    (row.length ≠ 3 → parseRows (row :: rest) = parseRows rest)
    ∧ (∀ m c a, row = [m, c, a] → (pyStrip c = "" ∨ pyStrip m = "") →
        parseRows (row :: rest) = parseRows rest)
    ∧ (∀ m c a, row = [m, c, a] → pyStrip c ≠ "" → pyStrip m ≠ "" →
        (parseIntPy (pyStrip m) = none ∨ parseFloatPy (pyStrip a) = none) →
        parseRows (row :: rest)
          = Except.error (ValidationError.parseError (pyStrip c) (pyStrip m) (pyStrip a)))
    ∧ (∀ m c a month amount, row = [m, c, a] →
        pyStrip c ≠ "" → pyStrip m ≠ "" →
        parseIntPy (pyStrip m) = some month → parseFloatPy (pyStrip a) = some amount →
        ∀ e, parseRows rest = Except.error e →
          parseRows (row :: rest) = Except.error e) := by
  refine ⟨?_, ?_, ?_, ?_⟩
  · intro hlen
    rcases row with _ | ⟨x, _ | ⟨y, _ | ⟨z, _ | w⟩⟩⟩
    · simp [parseRows]
    · simp [parseRows]
    · simp [parseRows]
    · exact absurd rfl hlen
    · simp [parseRows]
  · rintro m c a rfl h
    rcases h with h | h <;> simp [parseRows, h]
  · rintro m c a rfl hc hm h
    rcases h with h | h
    · simp [parseRows, hc, hm, h]
    · rcases hi : parseIntPy (pyStrip m) with _ | mv <;>
        simp [parseRows, hc, hm, h, hi]
  · rintro m c a month amount rfl hc hm hmv hav e he
    simp [parseRows, hc, hm, hmv, hav, he]

/-- Witness for C7 at a concrete input with a non-numeric amount. -/
theorem row_parsing_witness :
    parseRows [["1", "food", "abc"], ["2", "food", "20"]]
      = Except.error (ValidationError.parseError (pyStrip "food") (pyStrip "1")
          (pyStrip "abc")) :=
  (row_parsing_skip_and_abort ["1", "food", "abc"] [["2", "food", "20"]]).2.2.1
    "1" "food" "abc" rfl (by decide) (by decide) (Or.inr (by decide))

/-- C8: the header is accepted iff it has exactly 3 fields whose lowercase
forms are exactly month, category, amount in that order; any rejected
header makes the whole validation fail with the schema error before any
data row is processed; and the header Month,Cat,Amt in particular is
rejected. -/
theorem header_schema_check :
    (∀ header, headerOk header = true ↔
      ∃ a b c, header = [a, b, c] ∧ pyLower a = "month" ∧ pyLower b = "category"
        ∧ pyLower c = "amount")
    ∧ (∀ header rows salary fm, headerOk header = false →
        forecastApi header rows salary fm = Except.error ValidationError.schemaError)
    ∧ headerOk ["Month", "Cat", "Amt"] = false := by
  refine ⟨?_, ?_, by decide⟩
  · intro header
    constructor
    · intro h
      rcases header with _ | ⟨a, _ | ⟨b, _ | ⟨c, _ | t⟩⟩⟩
      · simp [headerOk] at h
      · simp [headerOk] at h
      · simp [headerOk] at h
      · simp only [headerOk, Bool.and_eq_true, beq_iff_eq] at h
        exact ⟨a, b, c, rfl, h.1.1, h.1.2, h.2⟩
      · simp [headerOk] at h
    · rintro ⟨a, b, c, rfl, h1, h2, h3⟩
      simp [headerOk, h1, h2, h3]
  · intro header rows salary fm h
    unfold forecastApi
    rw [h]
    simp

/-- Witness for C8 at the concrete header named by the spec. -/
theorem header_schema_witness :
    forecastApi ["Month", "Cat", "Amt"] [["1", "f", "10"]] 100 3
      = Except.error ValidationError.schemaError :=
  header_schema_check.2.1 ["Month", "Cat", "Amt"] [["1", "f", "10"]] 100 3 (by decide)

end FinanceAnalyzer

namespace FinanceAnalyzer

theorem mem_drop_forecast {data : List Obs} {categories : List String} {salary : ℚ}
    {fm : Nat} {ms : MonthSummary}
    (h : ms ∈ (generate_forecast data categories salary fm).drop (sortedMonths data).length) :
    ∃ i, i ∈ List.range fm
      ∧ ms = futureSummary data categories salary (maxMonth data + 1 + (i : Int)) := by
  unfold generate_forecast at h
  rw [show (sortedMonths data).length
      = (List.map (histSummary data categories salary) (sortedMonths data)).length from
    (List.length_map _ _).symm, List.drop_left] at h
  rcases List.mem_map.mp h with ⟨i, hi, rfl⟩
  exact ⟨i, hi, rfl⟩

/-- C4: every per-category value recorded in a future month's summary —
an entry of the part of the output timeline after the historical months —
is greater than or equal to 0 (predictions are clamped at 0 from below). -/
theorem future_category_values_nonneg (data : List Obs) (categories : List String)
    (salary : ℚ) (fm : Nat) (ms : MonthSummary) (p : String × ℚ)
    (h1 : ms ∈ (generate_forecast data categories salary fm).drop (sortedMonths data).length)
    (h2 : p ∈ ms.cats) : 0 ≤ p.2 := by
  rcases mem_drop_forecast h1 with ⟨i, _, rfl⟩
  have h2' : p ∈ futureCats data categories (maxMonth data + 1 + (i : Int)) := h2
  rcases List.mem_filterMap.mp h2' with ⟨c, _, hf⟩
  split at hf
  · cases hf
  · cases hf
    exact le_max_left 0 _

/-- Witness for C4 at a concrete input. -/
theorem future_values_nonneg_witness :
    0 ≤ ("food", max 0 (olsPredict (seriesOf [⟨1, "food", 10⟩] "food") ((2 : Int) : ℚ))).2 :=
  future_category_values_nonneg [⟨1, "food", 10⟩] ["food"] 100 1
    (futureSummary [⟨1, "food", 10⟩] ["food"] 100 2)
    ("food", max 0 (olsPredict (seriesOf [⟨1, "food", 10⟩] "food") ((2 : Int) : ℚ)))
    (by
      have h : (generate_forecast [⟨1, "food", 10⟩] ["food"] 100 1).drop
          (sortedMonths [⟨1, "food", 10⟩]).length
          = [futureSummary [⟨1, "food", 10⟩] ["food"] 100 2] := by
        unfold generate_forecast
        norm_num [sortedMonths, distinctMonths, dedupFirst, maxMonth, List.range_succ]
      rw [h]
      exact List.mem_singleton.mpr rfl)
    (by simp +decide [futureSummary, futureCats])

theorem mem_histCats {data : List Obs} {categories : List String} {m : Int} {c : String}
    {v : ℚ} :
    (c, v) ∈ histCats data categories m ↔
      c ∈ categories
      ∧ data.filter (fun o => o.category == c && o.month == m) ≠ []
      ∧ v = sumAmounts (data.filter (fun o => o.category == c && o.month == m)) := by
  unfold histCats
  rw [List.mem_filterMap]
  constructor
  · rintro ⟨x, hx, hf⟩
    have hf2 : (if (data.filter (fun o => o.category == x && o.month == m)).isEmpty = true
        then none
        else some (x, sumAmounts (data.filter (fun o => o.category == x && o.month == m))))
        = some (c, v) := hf
    by_cases hemp : (data.filter (fun o => o.category == x && o.month == m)).isEmpty = true
    · rw [if_pos hemp] at hf2
      cases hf2
    · rw [if_neg hemp] at hf2
      have h' := Option.some.inj hf2
      injection h' with h1 h2
      subst h1
      subst h2
      exact ⟨hx, by simpa using hemp, rfl⟩
  · rintro ⟨hc, hne, rfl⟩
    refine ⟨c, hc, ?_⟩
    rw [if_neg (by simpa using hne)]

end FinanceAnalyzer

namespace FinanceAnalyzer

theorem map_fst_filterMap_sublist {α β : Type} (f : α → Option (α × β)) (l : List α)
    (hf : ∀ a p, f a = some p → p.1 = a) :
    List.Sublist ((l.filterMap f).map Prod.fst) l := by
  induction l with
  | nil => simp
  | cons x xs ih =>
    rcases hx : f x with _ | p
    · rw [List.filterMap_cons_none hx]
      exact ih.cons x
    · rw [List.filterMap_cons_some hx, List.map_cons, hf x p hx]
      exact ih.cons₂ x

theorem nodup_histCats_keys (data : List Obs) (m : Int) :
    ((histCats data (categoriesOf data) m).map Prod.fst).Nodup := by
  have hsub := map_fst_filterMap_sublist
    (fun c =>
      let items := data.filter (fun o => o.category == c && o.month == m)
      if items.isEmpty then none else some (c, sumAmounts items))
    (categoriesOf data)
    (by
      intro a p hp
      have hp2 : (if (data.filter (fun o => o.category == a && o.month == m)).isEmpty = true
          then none
          else some (a, sumAmounts (data.filter (fun o => o.category == a && o.month == m))))
          = some p := hp
      by_cases hemp : (data.filter (fun o => o.category == a && o.month == m)).isEmpty = true
      · rw [if_pos hemp] at hp2
        cases hp2
      · rw [if_neg hemp] at hp2
        rw [← Option.some.inj hp2])
  exact hsub.nodup (nodup_dedupFirst _)

/-- C9: a historical month's summary contains a key for category `c` iff at
least one validated observation with that month and category exists; every
recorded value is the sum of the amounts of the matching observations; and
each category key occurs at most once in a summary, so a category absent
from a month is omitted entirely rather than recorded as 0. -/
theorem hist_summary_sparse_keys (data : List Obs) (salary : ℚ) (m : Int) (c : String) :
    ((∃ v, (c, v) ∈ (histSummary data (categoriesOf data) salary m).cats) ↔
      ∃ o ∈ data, o.month = m ∧ o.category = c)
    ∧ (∀ v, (c, v) ∈ (histSummary data (categoriesOf data) salary m).cats →
        v = sumAmounts (data.filter (fun o => o.category == c && o.month == m)))
    ∧ ((histSummary data (categoriesOf data) salary m).cats.map Prod.fst).Nodup := by
  refine ⟨?_, ?_, nodup_histCats_keys data m⟩
  · constructor
    · rintro ⟨v, hv⟩
      have hv' : (c, v) ∈ histCats data (categoriesOf data) m := hv
      rcases mem_histCats.mp hv' with ⟨_, hne, _⟩
      rcases List.exists_mem_of_ne_nil _ hne with ⟨o, ho⟩
      rcases List.mem_filter.mp ho with ⟨hod, hcond⟩
      simp only [Bool.and_eq_true, beq_iff_eq] at hcond
      exact ⟨o, hod, hcond.2, hcond.1⟩
    · rintro ⟨o, ho, hom, hoc⟩
      have hcmem : c ∈ categoriesOf data :=
        mem_dedupFirst.mpr (List.mem_map.mpr ⟨o, ho, hoc⟩)
      have hmemf : o ∈ data.filter (fun o => o.category == c && o.month == m) :=
        List.mem_filter.mpr ⟨ho, by simp [hoc, hom]⟩
      exact ⟨sumAmounts (data.filter (fun o => o.category == c && o.month == m)),
        mem_histCats.mpr ⟨hcmem, List.ne_nil_of_mem hmemf, rfl⟩⟩
  · intro v hv
    exact (mem_histCats.mp hv).2.2

/-- Witness for C9 at a concrete input. -/
theorem hist_summary_keys_witness :
    ∃ v, ("food", v) ∈
      (histSummary [⟨1, "food", 10⟩] (categoriesOf [⟨1, "food", 10⟩]) 100 1).cats :=
  (hist_summary_sparse_keys [⟨1, "food", 10⟩] 100 1 "food").1.mpr
    ⟨⟨1, "food", 10⟩, by simp, rfl, rfl⟩

/-- C10: every category of the derived category set has at least one
observation, so the omitted-category case for future months is unreachable:
every summary in the future part of the output timeline contains a
predicted entry for every category of the set. -/
theorem future_summary_covers_categories (data : List Obs) (salary : ℚ) (fm : Nat)
    (c : String) (hc : c ∈ categoriesOf data) :
    (∃ o ∈ data, o.category = c)
    ∧ (∀ ms ∈ (generate_forecast data (categoriesOf data) salary fm).drop
        (sortedMonths data).length, ∃ v, (c, v) ∈ ms.cats) := by
  have hobs : ∃ o ∈ data, o.category = c := by
    rcases List.mem_map.mp (mem_dedupFirst.mp hc) with ⟨o, ho, rfl⟩
    exact ⟨o, ho, rfl⟩
  refine ⟨hobs, ?_⟩
  intro ms hms
  rcases mem_drop_forecast hms with ⟨i, _, rfl⟩
  refine ⟨max 0 (olsPredict (seriesOf data c) ((maxMonth data + 1 + (i : Int) : Int) : ℚ)), ?_⟩
  show _ ∈ futureCats data (categoriesOf data) _
  unfold futureCats
  rw [List.mem_filterMap]
  refine ⟨c, hc, ?_⟩
  rw [if_neg ?_]
  rcases hobs with ⟨o, ho, hoc⟩
  have : o ∈ data.filter (fun o => o.category == c) :=
    List.mem_filter.mpr ⟨ho, by simp [hoc]⟩
  simpa using List.ne_nil_of_mem this

/-- Witness for C10 at a concrete input. -/
theorem future_covers_witness :
    ∃ o ∈ [Obs.mk 1 "food" 10], o.category = "food" :=
  (future_summary_covers_categories [⟨1, "food", 10⟩] 100 1 "food" (by decide)).1

end FinanceAnalyzer

namespace FinanceAnalyzer

/-- Witness for C1 at a concrete input: the future months start right after
the maximum historical month, which is itself one of the input months. -/
theorem forecast_timeline_months_witness :
    maxMonth [⟨1, "food", 10⟩, ⟨2, "food", 10⟩, ⟨5, "food", 10⟩]
      ∈ distinctMonths [⟨1, "food", 10⟩, ⟨2, "food", 10⟩, ⟨5, "food", 10⟩] :=
  (forecast_timeline_months [⟨1, "food", 10⟩, ⟨2, "food", 10⟩, ⟨5, "food", 10⟩]
    ["food"] 100 2).2.2.2.2 (by decide)

end FinanceAnalyzer
